import Mathlib

/-!
# messenger-go: the handlers of `main.go` over an explicit document store

The five HTTP handlers of `main.go` are embedded as pure functions from a store
state, a decoded request and an environment to a new store state and a response.

* The document store is three collections kept in insertion order.  `FindOne`
  answers with the first document matching the filter, `InsertOne` appends (and
  refuses a duplicate `_id`), `UpdateOne` changes the first document matching the
  filter and is a successful no-op when nothing matches.  A read answers from the
  collection: the handlers treat every error of `FindOne(...).Decode` alike, as
  the document not being there.
* Everything the handler cannot decide by itself is read from `Env`: the
  successive readings of `time.Now()`, the `_id` the driver generates for a
  document that carries none, and whether `InsertOne` / the i-th `UpdateOne`
  return an error.
* Decoding the request body and encoding the response are the transport layer;
  a handler here starts from the decoded struct and ends with the response value.
* `sort.Slice` is library code.  It sorts a slice of at most twelve elements by
  insertion, which is embedded, and hands a longer one to its pattern-defeating
  quicksort, whose steps (and with them the order among elements the comparator
  does not separate) are the library's own and change with its version.  The
  readers take that part as the argument `pdqsort`; what is proved of them on
  longer lists is proved for every function that keeps what the library
  documents of `sort.Slice`.
-/

namespace Messenger

/-- The type `primitive.ObjectID`; `0` stands for the zero value `NilObjectID`. -/
abbrev ObjectID := Nat

/-- An instant of `time.Time`, in the resolution the store keeps. -/
abbrev Time := Int

/-- The struct `User`. -/
structure User where
  ID : ObjectID
  Username : String
  Chats : List ObjectID
  CreatedAt : Time
deriving DecidableEq, Repr

/-- The struct `Chat`. -/
structure Chat where
  ID : ObjectID
  Name : String
  Users : List ObjectID
  Messages : List ObjectID
  CreatedAt : Time
  LastMessageAt : Time
deriving DecidableEq, Repr

/-- The struct `Message`. -/
structure Message where
  ID : ObjectID
  Chat : ObjectID
  Author : ObjectID
  Text : String
  CreatedAt : Time
deriving DecidableEq, Repr

/-- The database `messenger`: collections `users`, `chats`, `messages`, each in insertion order. -/
structure Store where
  users : List User
  chats : List Chat
  messages : List Message
deriving DecidableEq, Repr

/-- The database before any request. -/
def Store.empty : Store := ⟨[], [], []⟩

/-- What a request reads from outside the handler. -/
structure Env where
  /-- The n-th reading of `time.Now()` during the request. -/
  now : Nat → Time
  /-- The `_id` the driver generates for a document whose `_id` is the zero value. -/
  newID : ObjectID
  /-- Whether `InsertOne` returns an error of the store. -/
  insertErr : Bool
  /-- Whether the i-th `UpdateOne` of the request returns an error of the store. -/
  updateErr : Nat → Bool

/-- The text written into the `message` field of a failure body. -/
inductive Failure where
  /-- The text "user with this username already exists". -/
  | usernameExists
  /-- The text "chat with this name already exists". -/
  | chatNameExists
  /-- The text "user with id = ... not exists", with the hex form of the id. -/
  | userIdNotExists (userId : ObjectID)
  /-- The text "chat not exists". -/
  | chatNotExists
  /-- The text "author is not in the chat". -/
  | authorNotInChat
  /-- The text "user not exists". -/
  | userNotExists
  /-- The text of an error returned by the driver. -/
  | storeError
deriving DecidableEq, Repr

/-- What the handler writes to the `http.ResponseWriter`. -/
inductive Response where
  | id (insertedId : ObjectID)
  | chats (resultChats : List Chat)
  | messages (resultMessages : List Message)
  | failure (status : Nat) (message : Failure)
deriving DecidableEq, Repr

/-! ## Store operations -/

/-- `users.FindOne({"_id": id})`. -/
def findUser (s : Store) (id : ObjectID) : Option User :=
  s.users.find? (fun u => u.ID == id)

/-- `users.FindOne({"username": name})`. -/
def findUserByName (s : Store) (name : String) : Option User :=
  s.users.find? (fun u => u.Username == name)

/-- `chats.FindOne({"_id": id})`. -/
def findChat (s : Store) (id : ObjectID) : Option Chat :=
  s.chats.find? (fun c => c.ID == id)

/-- `chats.FindOne({"name": name})`. -/
def findChatByName (s : Store) (name : String) : Option Chat :=
  s.chats.find? (fun c => c.Name == name)

/-- `messages.FindOne({"_id": id})`. -/
def findMessage (s : Store) (id : ObjectID) : Option Message :=
  s.messages.find? (fun m => m.ID == id)

/-- The `_id` a document is stored under: its own (`omitempty` drops the zero value), else a generated one. -/
def storedID (env : Env) (own : ObjectID) : ObjectID :=
  if own = 0 then env.newID else own

/-- `users.InsertOne(user)`: the inserted id and the new collection, or `none` on an error. -/
def insertUser (env : Env) (coll : List User) (user : User) : Option (ObjectID × List User) :=
  if env.insertErr then none
  else
    let oid := storedID env user.ID
    if coll.any (fun d => d.ID == oid) then none
    else some (oid, coll ++ [{ user with ID := oid }])

/-- `chats.InsertOne(chat)`. -/
def insertChat (env : Env) (coll : List Chat) (chat : Chat) : Option (ObjectID × List Chat) :=
  if env.insertErr then none
  else
    let oid := storedID env chat.ID
    if coll.any (fun d => d.ID == oid) then none
    else some (oid, coll ++ [{ chat with ID := oid }])

/-- `messages.InsertOne(message)`. -/
def insertMessage (env : Env) (coll : List Message) (message : Message) :
    Option (ObjectID × List Message) :=
  if env.insertErr then none
  else
    let oid := storedID env message.ID
    if coll.any (fun d => d.ID == oid) then none
    else some (oid, coll ++ [{ message with ID := oid }])

/-- `users.UpdateOne({"_id": userId}, {"$push": {"chats": chatId}})` when the store answers. -/
def pushChat (userId chatId : ObjectID) : List User → List User
  | [] => []
  | u :: us =>
    if u.ID = userId then { u with Chats := u.Chats ++ [chatId] } :: us
    else u :: pushChat userId chatId us

/-- `chats.UpdateOne({"_id": chatId}, {"$push": {"messages": messageId}, "$set": {"last_message_at": t}})`
when the store answers. -/
def pushMessage (chatId messageId : ObjectID) (t : Time) : List Chat → List Chat
  | [] => []
  | c :: cs =>
    if c.ID = chatId then { c with Messages := c.Messages ++ [messageId], LastMessageAt := t } :: cs
    else c :: pushMessage chatId messageId t cs

/-! ## AddUser -/

/-- The handler `AddUser`, from the decoded body on. -/
def AddUser (s : Store) (req : User) (env : Env) : Store × Response :=
  let user : User := { req with Chats := [], CreatedAt := env.now 0 }
  match findUserByName s user.Username with
  | some _ => (s, Response.failure 400 Failure.usernameExists)
  | none =>
    match insertUser env s.users user with
    | none => (s, Response.failure 500 Failure.storeError)
    | some (oid, users1) => ({ s with users := users1 }, Response.id oid)

/-! ## AddChat -/

/-- The first loop of `AddChat`: the first id of the list that `FindOne` does not find. -/
def firstMissingUser (s : Store) : List ObjectID → Option ObjectID
  | [] => none
  | userId :: rest =>
    match findUser s userId with
    | none => some userId
    | some _ => firstMissingUser s rest

/-- The second loop of `AddChat`: one `$push` per entry of the list, in list order, stopping at
the first update that returns an error.  The flag tells whether the loop ran to its end. -/
def backfill (env : Env) (chatId : ObjectID) : List ObjectID → Nat → List User → List User × Bool
  | [], _, us => (us, true)
  | userId :: rest, i, us =>
    if env.updateErr i then (us, false)
    else backfill env chatId rest (i + 1) (pushChat userId chatId us)

/-- The document `AddChat` hands to `InsertOne`: the decoded body with `Messages` and `CreatedAt` stamped. -/
def stampChat (req : Chat) (env : Env) : Chat :=
  { req with Messages := [], CreatedAt := env.now 0 }

/-- The handler `AddChat`, from the decoded body on. -/
def AddChat (s : Store) (req : Chat) (env : Env) : Store × Response :=
  let chat := stampChat req env
  match findChatByName s chat.Name with
  | some _ => (s, Response.failure 400 Failure.chatNameExists)
  | none =>
    match firstMissingUser s chat.Users with
    | some userId => (s, Response.failure 400 (Failure.userIdNotExists userId))
    | none =>
      match insertChat env s.chats chat with
      | none => (s, Response.failure 500 Failure.storeError)
      | some (oid, chats1) =>
        match backfill env oid chat.Users 0 s.users with
        | (users1, false) =>
          ({ s with chats := chats1, users := users1 }, Response.failure 500 Failure.storeError)
        | (users1, true) =>
          ({ s with chats := chats1, users := users1 }, Response.id oid)

/-! ## AddMessage -/

/-- The membership loop of `AddMessage`: `found` after scanning `chat.Users`. -/
def authorFound (author : ObjectID) : List ObjectID → Bool
  | [] => false
  | user :: rest => if author = user then true else authorFound author rest

/-- The handler `AddMessage`, from the decoded body on.  The id in the response is the one
`InsertOne` returned for the Message document. -/
def AddMessage (s : Store) (req : Message) (env : Env) : Store × Response :=
  let message : Message := { req with CreatedAt := env.now 0 }
  match findChat s message.Chat with
  | none => (s, Response.failure 400 Failure.chatNotExists)
  | some chat =>
    if authorFound message.Author chat.Users then
      match insertMessage env s.messages message with
      | none => (s, Response.failure 500 Failure.storeError)
      | some (oid, messages1) =>
        if env.updateErr 0 then
          ({ s with messages := messages1 }, Response.failure 500 Failure.storeError)
        else
          ({ s with messages := messages1,
                    chats := pushMessage message.Chat oid (env.now 1) s.chats },
            Response.id oid)
    else (s, Response.failure 400 Failure.authorNotInChat)

/-! ## sort.Slice -/

/-- The type of the library function `sort.Slice`, read on lists: from the element type, the
comparator `less` and a slice to the slice as the call leaves it. -/
abbrev SliceSort := (α : Type) → (α → α → Bool) → List α → List α

/-- What `sort.Slice` asks of `less`: a strict weak ordering, that is, never both ways round and
"not less" transitive. -/
def StrictWeak {α : Type} (less : α → α → Bool) : Prop :=
  (∀ a b, less a b = true → less b a = false) ∧
    (∀ a b c, less a b = false → less b c = false → less a c = false)

/-- What the library documents of `sort.Slice`, asked of the function that sorts the slices of
more than twelve elements: the call rearranges the slice, and for a `less` that is a strict weak
ordering no element of the result is `less` than one before it.  The order among elements `less`
does not separate is left open ("not guaranteed to be stable"). -/
structure SortsLongSlices (pdqsort : SliceSort) : Prop where
  perm : ∀ (α : Type) (less : α → α → Bool) (xs : List α), 12 < xs.length →
    (pdqsort α less xs).Perm xs
  sorted : ∀ (α : Type) (less : α → α → Bool) (xs : List α), 12 < xs.length → StrictWeak less →
    (pdqsort α less xs).Pairwise (fun a b => less b a = false)

/-- One pass of the inner loop of the library's `insertionSort_func`: the prefix already sorted
is kept reversed (last element first); the new element is swapped leftwards while `less` holds. -/
def insertBack {α : Type} (less : α → α → Bool) (x : α) : List α → List α
  | [] => [x]
  | y :: rp => if less x y then y :: insertBack less x rp else x :: y :: rp

/-- The library's `insertionSort_func` on a whole slice: every element in turn is moved left
past the elements it is `less` than. -/
def insertionSort : SliceSort :=
  fun _ less xs => (xs.foldl (fun rp x => insertBack less x rp) []).reverse

/-- The call `sort.Slice(xs, less)`: a slice of at most twelve elements is sorted by insertion,
a longer one by the library's pattern-defeating quicksort, the argument `pdqsort`. -/
def sortSlice (pdqsort : SliceSort) : SliceSort :=
  fun α less xs => if xs.length ≤ 12 then insertionSort α less xs else pdqsort α less xs

/-! ## GetChats and GetMessages -/

/-- The resolving loop of both readers: every id looked up in list order, `none` at the first miss. -/
def resolveAll {α : Type} (find : ObjectID → Option α) : List ObjectID → Option (List α)
  | [] => some []
  | i :: rest =>
    match find i with
    | none => none
    | some x =>
      match resolveAll find rest with
      | none => none
      | some xs => some (x :: xs)

/-- The handler `GetChats`, from the decoded body on. -/
def GetChats (pdqsort : SliceSort) (s : Store) (userId : ObjectID) : Response :=
  match findUser s userId with
  | none => Response.failure 400 Failure.userNotExists
  | some user =>
    match resolveAll (findChat s) user.Chats with
    | none => Response.failure 500 Failure.storeError
    | some resultChats =>
      Response.chats
        (sortSlice pdqsort Chat (fun a b => decide (b.LastMessageAt < a.LastMessageAt))
          resultChats)

/-- The handler `GetMessages`, from the decoded body on. -/
def GetMessages (pdqsort : SliceSort) (s : Store) (chatId : ObjectID) : Response :=
  match findChat s chatId with
  | none => Response.failure 400 Failure.chatNotExists
  | some chat =>
    match resolveAll (findMessage s) chat.Messages with
    | none => Response.failure 500 Failure.storeError
    | some resultMessages =>
      Response.messages
        (sortSlice pdqsort Message (fun a b => decide (a.CreatedAt < b.CreatedAt))
          resultMessages)

/-! ## Reachable states -/

/-- The environment of a request in which every store operation succeeds. -/
def Env.noFault (env : Env) : Prop :=
  env.insertErr = false ∧ ∀ i, env.updateErr i = false

/-- The store states reached from the empty store by `AddUser`, `AddChat` and `AddMessage` calls
during which no store operation returns an error. -/
inductive Reachable : Store → Prop where
  | empty : Reachable Store.empty
  | addUser (s : Store) (req : User) (env : Env) :
      Reachable s → env.noFault → Reachable (AddUser s req env).1
  | addChat (s : Store) (req : Chat) (env : Env) :
      Reachable s → env.noFault → Reachable (AddChat s req env).1
  | addMessage (s : Store) (req : Message) (env : Env) :
      Reachable s → env.noFault → Reachable (AddMessage s req env).1

/-! ## Specification vocabulary -/

/-- The updates `backfill` performs when none fails: one `$push` per entry, in list order. -/
def pushChats (chatId : ObjectID) (ids : List ObjectID) (us : List User) : List User :=
  ids.foldl (fun acc userId => pushChat userId chatId acc) us

/-- The ids a user's chats list carries when every back-reference has been written: for each
stored chat, in insertion order, its id once per occurrence of the user in its users list. -/
def backRefs (chats : List Chat) (userId : ObjectID) : List ObjectID :=
  chats.flatMap (fun c => List.replicate (c.Users.count userId) c.ID)

/-- What the collections satisfy between requests that met no store error. -/
structure Inv (s : Store) : Prop where
  usersNodup : (s.users.map User.ID).Nodup
  chatsNodup : (s.chats.map Chat.ID).Nodup
  chatUsers : ∀ c ∈ s.chats, ∀ u ∈ c.Users, u ∈ s.users.map User.ID
  userChats : ∀ u ∈ s.users, u.Chats = backRefs s.chats u.ID
  chatMessages : ∀ c ∈ s.chats, ∀ m ∈ c.Messages,
    ∃ msg, findMessage s m = some msg ∧ msg.Chat = c.ID ∧ msg.Author ∈ c.Users

/-! ## Example states and requests -/

/-- The zero value `time.Time{}` (January 1 of year 1, UTC), which a field absent from the body keeps. -/
def zeroTime : Time := -62135596800000

/-- An environment without faults: the clock reads 1000 and then 2000, the driver generates id 5. -/
def exEnv : Env := ⟨fun n => if n = 0 then 1000 else 2000, 5, false, fun _ => false⟩

/-- As `exEnv`, the driver generating id 6. -/
def exEnv6 : Env := ⟨fun n => if n = 0 then 3000 else 4000, 6, false, fun _ => false⟩

/-- As `exEnv`, with the second `UpdateOne` of the request failing. -/
def exEnvFail : Env := ⟨fun n => if n = 0 then 1000 else 2000, 5, false, fun i => decide (i = 1)⟩

/-- Two users and nothing else. -/
def exTwoUsers : Store := ⟨[⟨1, "ann", [], 10⟩, ⟨2, "bob", [], 20⟩], [], []⟩

/-- One user whose chats list names chat 7, which is not stored. -/
def exDangling : Store := ⟨[⟨1, "ann", [7], 10⟩], [], []⟩

/-- Two users in one chat. -/
def exOneChat : Store :=
  ⟨[⟨1, "ann", [3], 10⟩, ⟨2, "bob", [3], 20⟩], [⟨3, "general", [1, 2], [], 30, zeroTime⟩], []⟩

/-- A body `{"name": "team", "users": [1, 2]}`. -/
def exChatReq : Chat := ⟨0, "team", [1, 2], [], zeroTime, zeroTime⟩

/-- A body `{"name": "team", "users": [1, 9]}`: user 9 is not stored. -/
def exChatReqUnknown : Chat := ⟨0, "team", [1, 9], [], zeroTime, zeroTime⟩

/-- A body `{"name": "solo", "users": [1]}`. -/
def exChatReqSolo : Chat := ⟨0, "solo", [1], [], zeroTime, zeroTime⟩

/-- A body `{"chat": 3, "author": 1, "text": "hi"}`. -/
def exMessageReq : Message := ⟨0, 3, 1, "hi", zeroTime⟩

/-- A body `{"chat": 3, "author": 8, "text": "hi"}`: user 8 is not in chat 3. -/
def exMessageReqStranger : Message := ⟨0, 3, 8, "hi", zeroTime⟩

/-- An environment without faults: the clock reads `t`, the driver generates `newID`. -/
def exEnvWith (newID : ObjectID) (t : Time) : Env := ⟨fun _ => t, newID, false, fun _ => false⟩

/-- A body `{"username": "ann"}`. -/
def exUserReq : User := ⟨0, "ann", [], zeroTime⟩

/-- A body `{"name": "echo", "users": [1, 1]}`: the same user named twice. -/
def exChatReqTwice : Chat := ⟨0, "echo", [1, 1], [], zeroTime, zeroTime⟩

/-- The store after `AddUser` for "ann" and `AddChat` for "echo" with users `[1, 1]`. -/
def exRepeated : Store :=
  ⟨[⟨1, "ann", [5, 5], 10⟩], [⟨5, "echo", [1, 1], [], 1000, zeroTime⟩], []⟩

/-- The store after `AddUser` for "ann", `AddChat` for "solo" with users `[1]` and one
`AddMessage` by user 1 to that chat. -/
def exConversation : Store :=
  ⟨[⟨1, "ann", [5], 10⟩], [⟨5, "solo", [1], [6], 1000, 4000⟩], [⟨6, 5, 1, "hi", 3000⟩]⟩

/-- A chat listing its two messages newest first. -/
def exTwoMessages : Store :=
  ⟨[⟨1, "ann", [3], 10⟩], [⟨3, "general", [1], [6, 5], 30, 3000⟩],
    [⟨5, 3, 1, "first", 1000⟩, ⟨6, 3, 1, "second", 3000⟩]⟩

/-- A user listing two chats, the one active longest ago first. -/
def exTwoChats : Store :=
  ⟨[⟨1, "ann", [3, 4], 10⟩],
    [⟨3, "general", [1], [], 30, 100⟩, ⟨4, "random", [1], [], 40, 200⟩], []⟩

/-! ## Validation -/

theorem firstMissingUser_split (s : Store) (ids : List ObjectID)
    (h : ∃ i ∈ ids, findUser s i = none) :
    ∃ pre uid post, ids = pre ++ uid :: post ∧ (∀ x ∈ pre, findUser s x ≠ none) ∧
      findUser s uid = none ∧ firstMissingUser s ids = some uid := by
  induction ids with
  | nil => obtain ⟨i, hi, _⟩ := h; cases hi
  | cons a rest ih =>
    cases ha : findUser s a with
    | none => exact ⟨[], a, rest, rfl, by simp, ha, by simp [firstMissingUser, ha]⟩
    | some u =>
      have h2 : ∃ i ∈ rest, findUser s i = none := by
        obtain ⟨i, hi, hn⟩ := h
        rcases List.mem_cons.mp hi with rfl | hi
        · rw [ha] at hn; cases hn
        · exact ⟨i, hi, hn⟩
      obtain ⟨pre, uid, post, he, hp, hu, hf⟩ := ih h2
      refine ⟨a :: pre, uid, post, by simp [he], ?_, hu, by simp [firstMissingUser, ha, hf]⟩
      intro x hx
      rcases List.mem_cons.mp hx with rfl | hx
      · simp [ha]
      · exact hp x hx

theorem firstMissingUser_none (s : Store) (ids : List ObjectID) :
    firstMissingUser s ids = none ↔ ∀ i ∈ ids, findUser s i ≠ none := by
  induction ids with
  | nil => simp [firstMissingUser]
  | cons a rest ih =>
    cases ha : findUser s a with
    | none => simp [firstMissingUser, ha]
    | some u => simp [firstMissingUser, ha, ih]

theorem authorFound_iff (author : ObjectID) (users : List ObjectID) :
    authorFound author users = true ↔ author ∈ users := by
  induction users with
  | nil => simp [authorFound]
  | cons u rest ih =>
    by_cases h : author = u
    · simp [authorFound, h]
    · simp [authorFound, h, ih]

/-- C1: when the name of the request is free and some id of its users list is not the id of a
stored user, `AddChat` answers 400 naming the first such id of the list, and the store it
returns is the store it was given. -/
theorem addChat_unknown_user (s : Store) (req : Chat) (env : Env)
    (hname : findChatByName s req.Name = none)
    (hmiss : ∃ i ∈ req.Users, findUser s i = none) :
    ∃ pre uid post, req.Users = pre ++ uid :: post ∧
      (∀ x ∈ pre, findUser s x ≠ none) ∧ findUser s uid = none ∧
      AddChat s req env = (s, Response.failure 400 (Failure.userIdNotExists uid)) := by
  obtain ⟨pre, uid, post, he, hp, hu, hf⟩ := firstMissingUser_split s req.Users hmiss
  refine ⟨pre, uid, post, he, hp, hu, ?_⟩
  simp [AddChat, stampChat, hname, hf]

/-- C2: when the chat of the request is stored and the author is not in that chat's users list,
`AddMessage` answers 400 "author is not in the chat" and the store it returns is the store it
was given. -/
theorem addMessage_author_not_in_chat (s : Store) (req : Message) (env : Env) (chat : Chat)
    (hchat : findChat s req.Chat = some chat) (hauthor : req.Author ∉ chat.Users) :
    AddMessage s req env = (s, Response.failure 400 Failure.authorNotInChat) := by
  have hf : authorFound req.Author chat.Users = false := by
    cases h : authorFound req.Author chat.Users with
    | false => rfl
    | true => exact absurd ((authorFound_iff _ _).mp h) hauthor
  simp [AddMessage, hchat, hf]

/-! ## sort.Slice: a sorted rearrangement -/

theorem insertBack_perm {α : Type} (less : α → α → Bool) (x : α) (l : List α) :
    (insertBack less x l).Perm (x :: l) := by
  induction l with
  | nil => exact List.Perm.refl _
  | cons y rp ih =>
    by_cases h : less x y = true
    · simp only [insertBack, h, if_true]
      exact ((List.Perm.cons y ih).trans (List.Perm.swap x y rp))
    · simp only [insertBack, h]
      exact List.Perm.refl _

theorem foldl_insertBack_perm {α : Type} (less : α → α → Bool) (xs acc : List α) :
    (xs.foldl (fun rp x => insertBack less x rp) acc).Perm (xs ++ acc) := by
  induction xs generalizing acc with
  | nil => exact List.Perm.refl _
  | cons x rest ih =>
    simp only [List.foldl_cons, List.cons_append]
    refine (ih _).trans ?_
    refine (List.Perm.append_left rest (insertBack_perm less x acc)).trans ?_
    exact List.perm_middle

theorem insertionSort_perm {α : Type} (less : α → α → Bool) (xs : List α) :
    (insertionSort α less xs).Perm xs := by
  unfold insertionSort
  refine (List.reverse_perm _).trans ?_
  simpa using foldl_insertBack_perm less xs []

theorem insertBack_pairwise {α : Type} (less : α → α → Bool)
    (hasym : ∀ a b, less a b = true → less b a = false)
    (htrans : ∀ a b c, less a b = false → less b c = false → less a c = false)
    (x : α) (l : List α) (hl : l.Pairwise (fun a b => less a b = false)) :
    (insertBack less x l).Pairwise (fun a b => less a b = false) := by
  induction l with
  | nil => simp [insertBack]
  | cons y rp ih =>
    obtain ⟨hy, hrp⟩ := List.pairwise_cons.mp hl
    by_cases h : less x y = true
    · simp only [insertBack, h, if_true]
      refine List.pairwise_cons.mpr ⟨?_, ih hrp⟩
      intro z hz
      rcases List.mem_cons.mp ((insertBack_perm less x rp).subset hz) with rfl | hz
      · exact hasym _ _ h
      · exact hy z hz
    · simp only [insertBack, h]
      have hxy : less x y = false := by simpa using h
      refine List.pairwise_cons.mpr ⟨?_, hl⟩
      intro z hz
      rcases List.mem_cons.mp hz with rfl | hz
      · exact hxy
      · exact htrans _ _ _ hxy (hy z hz)

theorem foldl_insertBack_pairwise {α : Type} (less : α → α → Bool)
    (hasym : ∀ a b, less a b = true → less b a = false)
    (htrans : ∀ a b c, less a b = false → less b c = false → less a c = false)
    (xs acc : List α) (hacc : acc.Pairwise (fun a b => less a b = false)) :
    (xs.foldl (fun rp x => insertBack less x rp) acc).Pairwise (fun a b => less a b = false) := by
  induction xs generalizing acc with
  | nil => exact hacc
  | cons x rest ih =>
    exact ih _ (insertBack_pairwise less hasym htrans x acc hacc)

theorem insertionSort_pairwise {α : Type} (less : α → α → Bool) (hless : StrictWeak less)
    (xs : List α) :
    (insertionSort α less xs).Pairwise (fun a b => less b a = false) := by
  unfold insertionSort
  rw [List.pairwise_reverse]
  exact foldl_insertBack_pairwise less hless.1 hless.2 xs [] List.Pairwise.nil

theorem insertionSort_sortsLongSlices : SortsLongSlices insertionSort :=
  ⟨fun _ less xs _ => insertionSort_perm less xs,
    fun _ less xs _ hless => insertionSort_pairwise less hless xs⟩

theorem sortSlice_perm (pdqsort : SliceSort) {α : Type} (less : α → α → Bool) (xs : List α)
    (hperm : 12 < xs.length → (pdqsort α less xs).Perm xs) :
    (sortSlice pdqsort α less xs).Perm xs := by
  unfold sortSlice
  by_cases hlen : xs.length ≤ 12
  · simp only [hlen, if_true]
    exact insertionSort_perm less xs
  · simp only [hlen, if_false]
    exact hperm (by omega)

theorem sortSlice_pairwise (pdqsort : SliceSort) {α : Type} (less : α → α → Bool)
    (hless : StrictWeak less) (xs : List α)
    (hsorted : 12 < xs.length → (pdqsort α less xs).Pairwise (fun a b => less b a = false)) :
    (sortSlice pdqsort α less xs).Pairwise (fun a b => less b a = false) := by
  unfold sortSlice
  by_cases hlen : xs.length ≤ 12
  · simp only [hlen, if_true]
    exact insertionSort_pairwise less hless xs
  · simp only [hlen, if_false]
    exact hsorted (by omega)

theorem strictWeak_before : StrictWeak (fun a b : Message => decide (a.CreatedAt < b.CreatedAt)) := by
  refine ⟨?_, ?_⟩
  · intro a b h
    simp only [decide_eq_true_eq, decide_eq_false_iff_not] at *
    exact lt_asymm h
  · intro a b c h1 h2
    simp only [decide_eq_false_iff_not, not_lt] at *
    exact le_trans h2 h1

theorem strictWeak_after :
    StrictWeak (fun a b : Chat => decide (b.LastMessageAt < a.LastMessageAt)) := by
  refine ⟨?_, ?_⟩
  · intro a b h
    simp only [decide_eq_true_eq, decide_eq_false_iff_not] at *
    exact lt_asymm h
  · intro a b c h1 h2
    simp only [decide_eq_false_iff_not, not_lt] at *
    exact le_trans h1 h2

theorem pair_of_perm_sorted {α : Type} (less : α → α → Bool) (x y : α) (ms rs : List α)
    (hperm : ms.Perm rs) (hsorted : ms.Pairwise (fun a b => less b a = false))
    (hxy : less x y = true) (hyx : less y x = false)
    (hrs : rs = [x, y] ∨ rs = [y, x]) : ms = [x, y] := by
  have hne : x ≠ y := by
    intro he
    rw [he] at hxy
    rw [he] at hyx
    rw [hxy] at hyx
    cases hyx
  have hp : ms.Perm [x, y] := by
    rcases hrs with h | h
    · rw [← h]; exact hperm
    · rw [h] at hperm; exact hperm.trans (List.Perm.swap x y [])
  match ms, hp.length_eq, hp, hsorted with
  | [u, v], _, hp, hsorted =>
    have hu : u ∈ [x, y] := hp.subset (List.mem_cons_self _ _)
    have hv : v ∈ [x, y] := hp.subset (List.mem_cons_of_mem _ (List.mem_cons_self _ _))
    have hx : x ∈ [u, v] := hp.symm.subset (List.mem_cons_self _ _)
    have hy : y ∈ [u, v] := hp.symm.subset (List.mem_cons_of_mem _ (List.mem_cons_self _ _))
    simp only [List.mem_cons, List.mem_singleton, List.not_mem_nil, or_false] at hu hv hx hy
    have huv : less v u = false := (List.pairwise_cons.mp hsorted).1 v (List.mem_cons_self _ _)
    rcases hu with rfl | rfl
    · rcases hv with rfl | rfl
      · rcases hy with h | h <;> exact absurd h.symm hne
      · rfl
    · rcases hv with rfl | rfl
      · rw [hxy] at huv; cases huv
      · rcases hx with h | h <;> exact absurd h hne

theorem resolveAll_of_resolves {α : Type} (find : ObjectID → Option α) (ids : List ObjectID)
    (h : ∀ i ∈ ids, find i ≠ none) :
    resolveAll find ids = some (ids.filterMap find) ∧
      (ids.filterMap find).length = ids.length := by
  induction ids with
  | nil => simp [resolveAll]
  | cons a rest ih =>
    obtain ⟨h1, h2⟩ := ih (fun i hi => h i (List.mem_cons_of_mem _ hi))
    cases ha : find a with
    | none => exact absurd ha (h a (List.mem_cons_self _ _))
    | some x => simp [resolveAll, ha, h1, h2, List.filterMap_cons]

theorem getMessages_eq (pdqsort : SliceSort) (s : Store) (chatId : ObjectID) (chat : Chat)
    (rs : List Message) (hchat : findChat s chatId = some chat)
    (hr : resolveAll (findMessage s) chat.Messages = some rs) :
    GetMessages pdqsort s chatId =
      Response.messages
        (sortSlice pdqsort Message (fun a b => decide (a.CreatedAt < b.CreatedAt)) rs) := by
  simp only [GetMessages, hchat, hr]

theorem getChats_eq (pdqsort : SliceSort) (s : Store) (userId : ObjectID) (user : User)
    (rs : List Chat) (huser : findUser s userId = some user)
    (hr : resolveAll (findChat s) user.Chats = some rs) :
    GetChats pdqsort s userId =
      Response.chats
        (sortSlice pdqsort Chat (fun a b => decide (b.LastMessageAt < a.LastMessageAt)) rs) := by
  simp only [GetChats, huser, hr]

/-- C4: when chat `chatId` is stored and every id of its messages list is the id of a stored
message, `GetMessages` answers with a rearrangement of those messages (one per id of the list)
in which no element is created after its successor; two messages created at `t1 < t2` come
back as `[M1, M2]` whichever way round the chat lists them.  For a chat of more than twelve
messages, and only then, this rests on the library's quicksort keeping what the library
documents of `sort.Slice`. -/
theorem getMessages_sorted_perm (pdqsort : SliceSort) (s : Store) (chatId : ObjectID)
    (chat : Chat) (hchat : findChat s chatId = some chat)
    (hres : ∀ i ∈ chat.Messages, findMessage s i ≠ none)
    (hsort : 12 < chat.Messages.length → SortsLongSlices pdqsort) :
    ∃ ms, GetMessages pdqsort s chatId = Response.messages ms ∧
      ms.Perm (chat.Messages.filterMap (findMessage s)) ∧
      (chat.Messages.filterMap (findMessage s)).length = chat.Messages.length ∧
      ms.Chain' (fun a b => a.CreatedAt ≤ b.CreatedAt) ∧
      ∀ M1 M2 : Message, M1.CreatedAt < M2.CreatedAt →
        (chat.Messages.filterMap (findMessage s) = [M1, M2] ∨
          chat.Messages.filterMap (findMessage s) = [M2, M1]) → ms = [M1, M2] := by
  obtain ⟨hr, hlen⟩ := resolveAll_of_resolves (findMessage s) chat.Messages hres
  have hperm := sortSlice_perm pdqsort (fun a b : Message => decide (a.CreatedAt < b.CreatedAt))
    (chat.Messages.filterMap (findMessage s))
    (fun h => (hsort (hlen ▸ h)).perm _ _ _ h)
  have hsorted := sortSlice_pairwise pdqsort
    (fun a b : Message => decide (a.CreatedAt < b.CreatedAt)) strictWeak_before
    (chat.Messages.filterMap (findMessage s))
    (fun h => (hsort (hlen ▸ h)).sorted _ _ _ h strictWeak_before)
  refine ⟨_, getMessages_eq pdqsort s chatId chat _ hchat hr, hperm, hlen, ?_, ?_⟩
  · refine List.Pairwise.chain' (hsorted.imp ?_)
    intro a b h
    simpa only [decide_eq_false_iff_not, not_lt] using h
  · intro M1 M2 hlt hcase
    refine pair_of_perm_sorted _ M1 M2 _ _ hperm hsorted ?_ ?_ hcase
    · simpa using hlt
    · simp only [decide_eq_false_iff_not]; exact lt_asymm hlt

/-- C5: when user `userId` is stored and every id of its chats list is the id of a stored chat,
`GetChats` answers with a rearrangement of those chats (one per id of the list) in which no
element has its last message before its successor's; two chats with last messages at `t1 < t2`
come back as `[C2, C1]` whichever way round the user lists them.  For a user of more than
twelve chats, and only then, this rests on the library's quicksort keeping what the library
documents of `sort.Slice`. -/
theorem getChats_sorted_perm (pdqsort : SliceSort) (s : Store) (userId : ObjectID)
    (user : User) (huser : findUser s userId = some user)
    (hres : ∀ i ∈ user.Chats, findChat s i ≠ none)
    (hsort : 12 < user.Chats.length → SortsLongSlices pdqsort) :
    ∃ cs, GetChats pdqsort s userId = Response.chats cs ∧
      cs.Perm (user.Chats.filterMap (findChat s)) ∧
      (user.Chats.filterMap (findChat s)).length = user.Chats.length ∧
      cs.Chain' (fun a b => b.LastMessageAt ≤ a.LastMessageAt) ∧
      ∀ C1 C2 : Chat, C1.LastMessageAt < C2.LastMessageAt →
        (user.Chats.filterMap (findChat s) = [C1, C2] ∨
          user.Chats.filterMap (findChat s) = [C2, C1]) → cs = [C2, C1] := by
  obtain ⟨hr, hlen⟩ := resolveAll_of_resolves (findChat s) user.Chats hres
  have hperm := sortSlice_perm pdqsort
    (fun a b : Chat => decide (b.LastMessageAt < a.LastMessageAt))
    (user.Chats.filterMap (findChat s))
    (fun h => (hsort (hlen ▸ h)).perm _ _ _ h)
  have hsorted := sortSlice_pairwise pdqsort
    (fun a b : Chat => decide (b.LastMessageAt < a.LastMessageAt)) strictWeak_after
    (user.Chats.filterMap (findChat s))
    (fun h => (hsort (hlen ▸ h)).sorted _ _ _ h strictWeak_after)
  refine ⟨_, getChats_eq pdqsort s userId user _ huser hr, hperm, hlen, ?_, ?_⟩
  · refine List.Pairwise.chain' (hsorted.imp ?_)
    intro a b h
    simpa only [decide_eq_false_iff_not, not_lt] using h
  · intro C1 C2 hlt hcase
    refine pair_of_perm_sorted _ C2 C1 _ _ hperm hsorted ?_ ?_ (Or.symm hcase)
    · simpa using hlt
    · simp only [decide_eq_false_iff_not]; exact lt_asymm hlt

/-! ## What the writes do to the collections -/

@[simp] theorem stampChat_Name (req : Chat) (env : Env) : (stampChat req env).Name = req.Name := rfl

@[simp] theorem stampChat_Users (req : Chat) (env : Env) : (stampChat req env).Users = req.Users := rfl

theorem insertUser_some {env : Env} {coll coll1 : List User} {user : User} {oid : ObjectID}
    (h : insertUser env coll user = some (oid, coll1)) :
    env.insertErr = false ∧ oid = storedID env user.ID ∧ (∀ d ∈ coll, d.ID ≠ oid) ∧
      coll1 = coll ++ [{ user with ID := oid }] := by
  unfold insertUser at h
  cases he : env.insertErr with
  | true => simp [he] at h
  | false =>
    simp only [he, Bool.false_eq_true, if_false] at h
    by_cases ha : (coll.any fun d => d.ID == storedID env user.ID) = true
    · rw [if_pos ha] at h
      cases h
    · rw [if_neg ha] at h
      simp only [Option.some.injEq, Prod.mk.injEq] at h
      obtain ⟨h1, h2⟩ := h
      refine ⟨rfl, h1.symm, ?_, by rw [← h2, h1]⟩
      intro d hd hid
      exact ha (List.any_eq_true.mpr ⟨d, hd, by simp [hid, h1]⟩)

theorem insertChat_some {env : Env} {coll coll1 : List Chat} {chat : Chat} {oid : ObjectID}
    (h : insertChat env coll chat = some (oid, coll1)) :
    env.insertErr = false ∧ oid = storedID env chat.ID ∧ (∀ d ∈ coll, d.ID ≠ oid) ∧
      coll1 = coll ++ [{ chat with ID := oid }] := by
  unfold insertChat at h
  cases he : env.insertErr with
  | true => simp [he] at h
  | false =>
    simp only [he, Bool.false_eq_true, if_false] at h
    by_cases ha : (coll.any fun d => d.ID == storedID env chat.ID) = true
    · rw [if_pos ha] at h
      cases h
    · rw [if_neg ha] at h
      simp only [Option.some.injEq, Prod.mk.injEq] at h
      obtain ⟨h1, h2⟩ := h
      refine ⟨rfl, h1.symm, ?_, by rw [← h2, h1]⟩
      intro d hd hid
      exact ha (List.any_eq_true.mpr ⟨d, hd, by simp [hid, h1]⟩)

theorem insertMessage_some {env : Env} {coll coll1 : List Message} {message : Message}
    {oid : ObjectID} (h : insertMessage env coll message = some (oid, coll1)) :
    env.insertErr = false ∧ oid = storedID env message.ID ∧ (∀ d ∈ coll, d.ID ≠ oid) ∧
      coll1 = coll ++ [{ message with ID := oid }] := by
  unfold insertMessage at h
  cases he : env.insertErr with
  | true => simp [he] at h
  | false =>
    simp only [he, Bool.false_eq_true, if_false] at h
    by_cases ha : (coll.any fun d => d.ID == storedID env message.ID) = true
    · rw [if_pos ha] at h
      cases h
    · rw [if_neg ha] at h
      simp only [Option.some.injEq, Prod.mk.injEq] at h
      obtain ⟨h1, h2⟩ := h
      refine ⟨rfl, h1.symm, ?_, by rw [← h2, h1]⟩
      intro d hd hid
      exact ha (List.any_eq_true.mpr ⟨d, hd, by simp [hid, h1]⟩)

theorem backfill_fail (env : Env) (cid : ObjectID) (ids : List ObjectID) (i k : Nat)
    (us : List User) (hk : k < ids.length)
    (hbefore : ∀ j, j < k → env.updateErr (i + j) = false)
    (hat : env.updateErr (i + k) = true) :
    backfill env cid ids i us = (pushChats cid (ids.take k) us, false) := by
  induction ids generalizing i k us with
  | nil => simp at hk
  | cons a rest ih =>
    cases k with
    | zero =>
      have h0 : env.updateErr i = true := by simpa using hat
      simp [backfill, h0, pushChats]
    | succ k =>
      have h0 : env.updateErr i = false := by simpa using hbefore 0 (Nat.succ_pos k)
      have hk2 : k < rest.length := by simpa using hk
      have hb2 : ∀ j, j < k → env.updateErr (i + 1 + j) = false := by
        intro j hj
        have := hbefore (j + 1) (Nat.succ_lt_succ hj)
        rwa [show i + (j + 1) = i + 1 + j by omega] at this
      have ha2 : env.updateErr (i + 1 + k) = true := by
        rwa [show i + (k + 1) = i + 1 + k by omega] at hat
      simp only [backfill, h0, Bool.false_eq_true, if_false]
      rw [ih (i + 1) k _ hk2 hb2 ha2]
      simp [pushChats]

theorem backfill_ok (env : Env) (cid : ObjectID) (ids : List ObjectID) (i : Nat)
    (us : List User) (hok : ∀ j, j < ids.length → env.updateErr (i + j) = false) :
    backfill env cid ids i us = (pushChats cid ids us, true) := by
  induction ids generalizing i us with
  | nil => simp [backfill, pushChats]
  | cons a rest ih =>
    have h0 : env.updateErr i = false := by simpa using hok 0 (by simp)
    have hb2 : ∀ j, j < rest.length → env.updateErr (i + 1 + j) = false := by
      intro j hj
      have := hok (j + 1) (by simpa using hj)
      rwa [show i + (j + 1) = i + 1 + j by omega] at this
    simp only [backfill, h0, Bool.false_eq_true, if_false]
    rw [ih (i + 1) _ hb2]
    simp [pushChats]

theorem backfill_true (env : Env) (cid : ObjectID) (ids : List ObjectID) (i : Nat)
    (us us1 : List User) (h : backfill env cid ids i us = (us1, true)) :
    us1 = pushChats cid ids us := by
  induction ids generalizing i us with
  | nil => simp [backfill, pushChats] at h ⊢; exact h.symm
  | cons a rest ih =>
    cases h0 : env.updateErr i with
    | true => simp [backfill, h0] at h
    | false =>
      simp only [backfill, h0, Bool.false_eq_true, if_false] at h
      simpa [pushChats] using ih (i + 1) _ h

theorem find_pushChat (userId chatId x : ObjectID) (us : List User) :
    (pushChat userId chatId us).find? (fun u => u.ID == x) =
      (us.find? (fun u => u.ID == x)).map
        (fun u => if x = userId then { u with Chats := u.Chats ++ [chatId] } else u) := by
  induction us with
  | nil => simp [pushChat]
  | cons u rest ih =>
    by_cases hu : u.ID = userId
    · by_cases hx : u.ID = x
      · have hxu : x = userId := hx.symm.trans hu
        simp [pushChat, hu, List.find?_cons, hxu]
      · have hxu : ¬ userId = x := fun h => hx (hu.trans h)
        have hxu2 : ¬ x = userId := fun h => hxu h.symm
        simp [pushChat, hu, List.find?_cons, hxu, hxu2]
    · by_cases hx : u.ID = x
      · have hxu : ¬ x = userId := fun h => hu (hx.trans h)
        simp [pushChat, hu, List.find?_cons, hx, hxu]
      · simp [pushChat, hu, List.find?_cons, hx, ih]

theorem find_pushChats (chatId x : ObjectID) (ids : List ObjectID) (us : List User) :
    (pushChats chatId ids us).find? (fun u => u.ID == x) =
      (us.find? (fun u => u.ID == x)).map
        (fun u => { u with Chats := u.Chats ++ List.replicate (ids.count x) chatId }) := by
  induction ids generalizing us with
  | nil =>
    cases h : us.find? (fun u => u.ID == x) <;> simp [pushChats, h]
  | cons a rest ih =>
    have hstep : pushChats chatId (a :: rest) us = pushChats chatId rest (pushChat a chatId us) := by
      simp [pushChats]
    rw [hstep, ih, find_pushChat]
    cases h : us.find? (fun u => u.ID == x) with
    | none => simp
    | some u =>
      by_cases hxa : x = a
      · subst hxa
        simp [List.count_cons_self, List.replicate_succ]
      · have hax : ¬ a = x := fun h => hxa h.symm
        simp [hxa, List.count_cons, hax]

/-! ## The shape of a successful request -/

theorem addUser_ok {s s1 : Store} {req : User} {env : Env} {uid : ObjectID}
    (h : AddUser s req env = (s1, Response.id uid)) :
    (∀ d ∈ s.users, d.ID ≠ uid) ∧
      s1 = { s with users := s.users ++
        [{ ID := uid, Username := req.Username, Chats := [], CreatedAt := env.now 0 }] } := by
  unfold AddUser at h
  simp only [] at h
  cases hn : findUserByName s req.Username with
  | some u => simp [hn] at h
  | none =>
    simp only [hn] at h
    cases hi : insertUser env s.users
        { ID := req.ID, Username := req.Username, Chats := [], CreatedAt := env.now 0 } with
    | none => simp [hi] at h
    | some r =>
      obtain ⟨oid, users1⟩ := r
      simp only [hi, Prod.mk.injEq, Response.id.injEq] at h
      obtain ⟨hs, ho⟩ := h
      subst ho
      obtain ⟨_, _, hfresh, hcoll⟩ := insertUser_some hi
      exact ⟨hfresh, by rw [← hs, hcoll]⟩

theorem addChat_after_insert (s : Store) (req : Chat) (env : Env) (cid : ObjectID)
    (chats1 : List Chat)
    (hname : findChatByName s req.Name = none)
    (hvalid : firstMissingUser s req.Users = none)
    (hins : insertChat env s.chats (stampChat req env) = some (cid, chats1)) :
    AddChat s req env =
      ({ s with chats := chats1, users := (backfill env cid req.Users 0 s.users).1 },
        if (backfill env cid req.Users 0 s.users).2 then Response.id cid
        else Response.failure 500 Failure.storeError) := by
  unfold AddChat
  simp only [stampChat_Name, stampChat_Users, hname, hvalid, hins]
  cases hb : backfill env cid req.Users 0 s.users with
  | mk us flag => cases flag <;> simp

theorem addChat_ok {s s1 : Store} {req : Chat} {env : Env} {cid : ObjectID}
    (h : AddChat s req env = (s1, Response.id cid)) :
    findChatByName s req.Name = none ∧ firstMissingUser s req.Users = none ∧
      (∀ d ∈ s.chats, d.ID ≠ cid) ∧
      s1 = { s with chats := s.chats ++ [{ stampChat req env with ID := cid }],
                    users := pushChats cid req.Users s.users } := by
  cases hn : findChatByName s req.Name with
  | some c => simp [AddChat, hn] at h
  | none =>
    cases hm : firstMissingUser s req.Users with
    | some u => simp [AddChat, hn, hm] at h
    | none =>
      cases hi : insertChat env s.chats (stampChat req env) with
      | none => simp [AddChat, hn, hm, hi] at h
      | some r =>
        obtain ⟨oid, chats1⟩ := r
        rw [addChat_after_insert s req env oid chats1 hn hm hi] at h
        cases hb : backfill env oid req.Users 0 s.users with
        | mk us flag =>
          cases flag with
          | false => simp [hb] at h
          | true =>
            simp only [hb, if_true, Prod.mk.injEq, Response.id.injEq] at h
            obtain ⟨hs, ho⟩ := h
            subst ho
            obtain ⟨_, _, hfresh, hcoll⟩ := insertChat_some hi
            have hus := backfill_true env oid req.Users 0 s.users us hb
            exact ⟨rfl, rfl, hfresh, by rw [← hs, hcoll, hus]⟩

theorem addMessage_ok {s s1 : Store} {req : Message} {env : Env} {mid : ObjectID}
    (h : AddMessage s req env = (s1, Response.id mid)) :
    ∃ chat, findChat s req.Chat = some chat ∧ req.Author ∈ chat.Users ∧
      (∀ d ∈ s.messages, d.ID ≠ mid) ∧
      s1 = { s with
        messages := s.messages ++ [{ ID := mid, Chat := req.Chat, Author := req.Author,
                                     Text := req.Text, CreatedAt := env.now 0 }],
        chats := pushMessage req.Chat mid (env.now 1) s.chats } := by
  unfold AddMessage at h
  simp only [] at h
  cases hc : findChat s req.Chat with
  | none => simp [hc] at h
  | some chat =>
    simp only [hc] at h
    cases ha : authorFound req.Author chat.Users with
    | false => simp [ha] at h
    | true =>
      simp only [ha, if_true] at h
      cases hi : insertMessage env s.messages
          { ID := req.ID, Chat := req.Chat, Author := req.Author, Text := req.Text,
            CreatedAt := env.now 0 } with
      | none => simp [hi] at h
      | some r =>
        obtain ⟨oid, messages1⟩ := r
        simp only [hi] at h
        cases hu : env.updateErr 0 with
        | true => simp [hu] at h
        | false =>
          simp only [hu, Bool.false_eq_true, if_false, Prod.mk.injEq, Response.id.injEq] at h
          obtain ⟨hs, ho⟩ := h
          subst ho
          obtain ⟨_, _, hfresh, hcoll⟩ := insertMessage_some hi
          exact ⟨chat, rfl, (authorFound_iff _ _).mp ha, hfresh, by rw [← hs, hcoll]⟩

theorem find_append_fresh {α : Type} (p : α → Bool) (l : List α) (x : α)
    (hl : ∀ d ∈ l, p d = false) (hx : p x = true) : (l ++ [x]).find? p = some x := by
  rw [List.find?_append]
  have : l.find? p = none := List.find?_eq_none.mpr (fun d hd => by simp [hl d hd])
  simp [this, List.find?_cons, hx]

theorem find_append_of_ne_none {α : Type} (p : α → Bool) (l m : List α)
    (h : l.find? p ≠ none) : (l ++ m).find? p = l.find? p := by
  rw [List.find?_append]
  cases hf : l.find? p with
  | none => exact absurd hf h
  | some a => rfl

theorem find_pushMessage (chatId messageId x : ObjectID) (t : Time) (cs : List Chat) :
    (pushMessage chatId messageId t cs).find? (fun c => c.ID == x) =
      (cs.find? (fun c => c.ID == x)).map
        (fun c => if x = chatId then
          { c with Messages := c.Messages ++ [messageId], LastMessageAt := t } else c) := by
  induction cs with
  | nil => simp [pushMessage]
  | cons c rest ih =>
    by_cases hu : c.ID = chatId
    · by_cases hx : c.ID = x
      · have hxu : x = chatId := hx.symm.trans hu
        simp [pushMessage, hu, List.find?_cons, hxu]
      · have hxu : ¬ chatId = x := fun h => hx (hu.trans h)
        have hxu2 : ¬ x = chatId := fun h => hxu h.symm
        simp [pushMessage, hu, List.find?_cons, hxu, hxu2]
    · by_cases hx : c.ID = x
      · have hxu : ¬ x = chatId := fun h => hu (hx.trans h)
        simp [pushMessage, hu, List.find?_cons, hx, hxu]
      · simp [pushMessage, hu, List.find?_cons, hx, ih]

/-! ## AddMessage: the two timestamps -/

/-- C6 (as stated, refuted): with the clock reading 1000 at the stamp and 2000 at the update,
`AddMessage` succeeds, the stored message is created at 1000 and the chat's last message time
is 2000. -/
theorem addMessage_two_clock_readings :
    AddMessage exOneChat exMessageReq exEnv =
        (⟨exOneChat.users,
          [⟨3, "general", [1, 2], [5], 30, 2000⟩],
          [⟨5, 3, 1, "hi", 1000⟩]⟩, Response.id 5) ∧
      ∃ msg chat, findMessage (AddMessage exOneChat exMessageReq exEnv).1 5 = some msg ∧
        findChat (AddMessage exOneChat exMessageReq exEnv).1 3 = some chat ∧
        msg.CreatedAt = 1000 ∧ chat.LastMessageAt = 2000 ∧
        chat.LastMessageAt ≠ msg.CreatedAt := by
  refine ⟨rfl, ⟨5, 3, 1, "hi", 1000⟩, ⟨3, "general", [1, 2], [5], 30, 2000⟩, rfl, rfl, rfl, rfl,
    by decide⟩

/-- C6 (amended): after an `AddMessage` that succeeds, the stored message carries the first
clock reading of the request and the chat carries the second one, read at the update; the two
agree exactly when the readings agree, and the message is not created after the chat's last
message time whenever the clock did not go back between the readings. -/
theorem addMessage_timestamps (s s1 : Store) (req : Message) (env : Env) (mid : ObjectID)
    (h : AddMessage s req env = (s1, Response.id mid)) :
    ∃ msg chat, findMessage s1 mid = some msg ∧ msg.CreatedAt = env.now 0 ∧
      findChat s1 req.Chat = some chat ∧ chat.LastMessageAt = env.now 1 ∧
      (chat.LastMessageAt = msg.CreatedAt ↔ env.now 1 = env.now 0) ∧
      (env.now 0 ≤ env.now 1 → msg.CreatedAt ≤ chat.LastMessageAt) := by
  obtain ⟨chat, hc, _, hfresh, hs⟩ := addMessage_ok h
  subst hs
  refine ⟨{ ID := mid, Chat := req.Chat, Author := req.Author, Text := req.Text,
            CreatedAt := env.now 0 },
          { chat with Messages := chat.Messages ++ [mid], LastMessageAt := env.now 1 },
          ?_, rfl, ?_, rfl, Iff.rfl, fun hle => hle⟩
  · exact find_append_fresh _ _ _ (fun d hd => by simpa using hfresh d hd) (by simp)
  · have hc2 : s.chats.find? (fun c => c.ID == req.Chat) = some chat := hc
    simp only [findChat, find_pushMessage, hc2, Option.map_some', if_true]

theorem addMessage_timestamps_witness :
    AddMessage exOneChat exMessageReq exEnv =
        ((AddMessage exOneChat exMessageReq exEnv).1, Response.id 5) ∧
      ∃ msg chat, findMessage (AddMessage exOneChat exMessageReq exEnv).1 5 = some msg ∧
        msg.CreatedAt = exEnv.now 0 ∧
        findChat (AddMessage exOneChat exMessageReq exEnv).1 exMessageReq.Chat = some chat ∧
        chat.LastMessageAt = exEnv.now 1 ∧
        (chat.LastMessageAt = msg.CreatedAt ↔ exEnv.now 1 = exEnv.now 0) ∧
        (exEnv.now 0 ≤ exEnv.now 1 → msg.CreatedAt ≤ chat.LastMessageAt) :=
  ⟨rfl, addMessage_timestamps exOneChat _ exMessageReq exEnv 5 rfl⟩

/-! ## AddChat: the inserted document -/

/-- C7 (the code at the failing input): for a body that names no `last_message_at`, `AddChat`
succeeds and the stored chat has an empty messages list and is created at the clock reading
1000, while its last message time is the zero time: `AddChat` stamps `Messages` and `CreatedAt`
and never assigns `LastMessageAt`. -/
theorem addChat_lastMessageAt_not_stamped :
    AddChat exTwoUsers exChatReq exEnv =
        (⟨[⟨1, "ann", [5], 10⟩, ⟨2, "bob", [5], 20⟩],
          [⟨5, "team", [1, 2], [], 1000, zeroTime⟩], []⟩, Response.id 5) ∧
      ∃ chat, findChat (AddChat exTwoUsers exChatReq exEnv).1 5 = some chat ∧
        chat.Messages = [] ∧ chat.CreatedAt = 1000 ∧ chat.LastMessageAt = zeroTime ∧
        chat.LastMessageAt ≠ chat.CreatedAt := by
  refine ⟨rfl, ⟨5, "team", [1, 2], [], 1000, zeroTime⟩, rfl, rfl, rfl, rfl, by decide⟩

/-! ## AddChat: back-references -/

/-- C10 (as stated, refuted): with users `[1, 1]` and the second update the first to fail,
`AddChat` answers 500 and user 1, who is U2, has the new chat id in its chats list. -/
theorem addChat_backfill_repeated_user :
    AddChat exTwoUsers exChatReqTwice exEnvFail =
        (⟨[⟨1, "ann", [5], 10⟩, ⟨2, "bob", [], 20⟩],
          [⟨5, "echo", [1, 1], [], 1000, zeroTime⟩], []⟩,
          Response.failure 500 Failure.storeError) ∧
      exEnvFail.updateErr 0 = false ∧ exEnvFail.updateErr 1 = true ∧
      exChatReqTwice.Users.drop 1 = [1] ∧
      ∃ usr, findUser (AddChat exTwoUsers exChatReqTwice exEnvFail).1 1 = some usr ∧
        5 ∈ usr.Chats := by
  refine ⟨rfl, rfl, rfl, rfl, ⟨1, "ann", [5], 10⟩, rfl, by decide⟩

/-- C10 (amended): when the request passes validation, the insert succeeds and update number `k`
(counted from 0, so the (k+1)-th) is the first to return an error, `AddChat` answers 500 and the
store keeps every write made so far: the chat is stored with the whole users list, the updates
for the entries before position `k` have been applied in list order and no other, so that a
user's chats list has gained the new id once per occurrence among those entries and a user
absent from them is as before; when the users list repeats no id, the users at positions `k`
and later are as before. -/
theorem addChat_backfill_stops (s : Store) (req : Chat) (env : Env) (cid : ObjectID)
    (chats1 : List Chat) (k : Nat)
    (hname : findChatByName s req.Name = none)
    (hvalid : firstMissingUser s req.Users = none)
    (hins : insertChat env s.chats (stampChat req env) = some (cid, chats1))
    (hk : k < req.Users.length)
    (hbefore : ∀ j, j < k → env.updateErr j = false)
    (hat : env.updateErr k = true) :
    ∃ s1, AddChat s req env = (s1, Response.failure 500 Failure.storeError) ∧
      s1.chats = s.chats ++ [{ stampChat req env with ID := cid }] ∧
      (findChat s1 cid).map Chat.Users = some req.Users ∧
      s1.messages = s.messages ∧
      s1.users = pushChats cid (req.Users.take k) s.users ∧
      (∀ u, findUser s1 u = (findUser s u).map (fun usr =>
        { usr with Chats := usr.Chats ++ List.replicate ((req.Users.take k).count u) cid })) ∧
      (∀ u ∈ req.Users.take k, ∃ usr, findUser s1 u = some usr ∧ cid ∈ usr.Chats) ∧
      (∀ u, u ∉ req.Users.take k → findUser s1 u = findUser s u) ∧
      (req.Users.Nodup → ∀ u ∈ req.Users.drop k, findUser s1 u = findUser s u) := by
  obtain ⟨_, _, hfresh, hcoll⟩ := insertChat_some hins
  have hb := backfill_fail env cid req.Users 0 k s.users hk
    (fun j hj => by simpa using hbefore j hj) (by simpa using hat)
  have hfind : ∀ u, findUser ⟨pushChats cid (req.Users.take k) s.users, chats1, s.messages⟩ u =
      (findUser s u).map (fun usr =>
        { usr with Chats := usr.Chats ++ List.replicate ((req.Users.take k).count u) cid }) :=
    fun u => find_pushChats cid u (req.Users.take k) s.users
  have hrest : ∀ u, u ∉ req.Users.take k →
      findUser ⟨pushChats cid (req.Users.take k) s.users, chats1, s.messages⟩ u =
        findUser s u := by
    intro u hu
    rw [hfind u, List.count_eq_zero_of_not_mem hu]
    cases hf : findUser s u <;> simp
  refine ⟨⟨pushChats cid (req.Users.take k) s.users, chats1, s.messages⟩, ?_, hcoll, ?_, rfl, rfl,
    hfind, ?_, hrest, ?_⟩
  · rw [addChat_after_insert s req env cid chats1 hname hvalid hins, hb]
    simp
  · have : findChat ⟨pushChats cid (req.Users.take k) s.users, chats1, s.messages⟩ cid =
        some { stampChat req env with ID := cid } := by
      simp only [findChat, hcoll]
      exact find_append_fresh _ _ _ (fun d hd => by simpa using hfresh d hd) (by simp)
    rw [this]; rfl
  · intro u hu
    have hex : findUser s u ≠ none :=
      (firstMissingUser_none s req.Users).mp hvalid u (List.mem_of_mem_take hu)
    cases hf : findUser s u with
    | none => exact absurd hf hex
    | some usr =>
      refine ⟨_, by rw [hfind u, hf]; rfl, ?_⟩
      have hpos : 0 < (req.Users.take k).count u := List.count_pos_iff.mpr hu
      exact List.mem_append_right _ (List.mem_replicate.mpr ⟨by omega, rfl⟩)
  · intro hnd u hu
    apply hrest
    intro ht
    have hsplit : (req.Users.take k ++ req.Users.drop k).Nodup := by
      rw [List.take_append_drop]; exact hnd
    exact (List.nodup_append.mp hsplit).2.2 ht hu

theorem addChat_backfill_stops_witness :
    ∃ s1, AddChat exTwoUsers exChatReq exEnvFail = (s1, Response.failure 500 Failure.storeError) ∧
      s1.chats = exTwoUsers.chats ++ [{ stampChat exChatReq exEnvFail with ID := 5 }] ∧
      (findChat s1 5).map Chat.Users = some exChatReq.Users ∧
      s1.messages = exTwoUsers.messages ∧
      s1.users = pushChats 5 (exChatReq.Users.take 1) exTwoUsers.users ∧
      (∀ u, findUser s1 u = (findUser exTwoUsers u).map (fun usr =>
        { usr with Chats := usr.Chats ++ List.replicate ((exChatReq.Users.take 1).count u) 5 })) ∧
      (∀ u ∈ exChatReq.Users.take 1, ∃ usr, findUser s1 u = some usr ∧ 5 ∈ usr.Chats) ∧
      (∀ u, u ∉ exChatReq.Users.take 1 → findUser s1 u = findUser exTwoUsers u) ∧
      (exChatReq.Users.Nodup → ∀ u ∈ exChatReq.Users.drop 1,
        findUser s1 u = findUser exTwoUsers u) :=
  addChat_backfill_stops exTwoUsers exChatReq exEnvFail 5
    [⟨5, "team", [1, 2], [], 1000, zeroTime⟩] 1 rfl rfl rfl
    (by decide) (by intro j hj; interval_cases j; rfl) rfl

/-- C3 (as stated, refuted): in a store where user 1 lists chat 7, which is not stored, `AddChat`
for `[1]` succeeds with id 5 and the `GetChats` for user 1 that follows answers 500, whatever
the library's quicksort does. -/
theorem addChat_then_getChats_dangling :
    AddChat exDangling exChatReqSolo exEnv =
        (⟨[⟨1, "ann", [7, 5], 10⟩], [⟨5, "solo", [1], [], 1000, zeroTime⟩], []⟩, Response.id 5) ∧
      1 ∈ exChatReqSolo.Users ∧
      ∀ pdqsort : SliceSort, GetChats pdqsort (AddChat exDangling exChatReqSolo exEnv).1 1 =
        Response.failure 500 Failure.storeError := by
  refine ⟨rfl, by decide, fun _ => rfl⟩

/-- C3 (amended): after an `AddChat` that succeeds with id `cid` in a store where every id
already in the chats list of a listed user is the id of a stored chat, the chat stored under
`cid` has the users list of the request, and for every listed user `GetChats` succeeds with a
list that holds a chat of id `cid`.  On more than twelve chats this rests on the library's
quicksort rearranging the slice it is given. -/
theorem addChat_then_getChats (pdqsort : SliceSort)
    (hperm : ∀ (less : Chat → Chat → Bool) (xs : List Chat), 12 < xs.length →
      (pdqsort Chat less xs).Perm xs)
    (s s1 : Store) (req : Chat) (env : Env) (cid : ObjectID)
    (h : AddChat s req env = (s1, Response.id cid))
    (hres : ∀ u ∈ req.Users, ∀ usr, findUser s u = some usr →
      ∀ c ∈ usr.Chats, findChat s c ≠ none) :
    (∃ chat, findChat s1 cid = some chat ∧ chat.Users = req.Users) ∧
      ∀ u ∈ req.Users, ∃ cs, GetChats pdqsort s1 u = Response.chats cs ∧
        ∃ c ∈ cs, c.ID = cid := by
  obtain ⟨_, hvalid, hfresh, hs⟩ := addChat_ok h
  have hchats : s1.chats = s.chats ++ [{ stampChat req env with ID := cid }] := by rw [hs]
  have husers : s1.users = pushChats cid req.Users s.users := by rw [hs]
  have hnew : findChat s1 cid = some { stampChat req env with ID := cid } := by
    simp only [findChat, hchats]
    exact find_append_fresh _ _ _ (fun d hd => by simpa using hfresh d hd) (by simp)
  refine ⟨⟨_, hnew, rfl⟩, ?_⟩
  intro u hu
  have hex : findUser s u ≠ none := (firstMissingUser_none s req.Users).mp hvalid u hu
  cases hf : findUser s u with
  | none => exact absurd hf hex
  | some usr =>
    have hu1 : findUser s1 u =
        some { usr with Chats := usr.Chats ++ List.replicate (req.Users.count u) cid } := by
      have hf2 : s.users.find? (fun x => x.ID == u) = some usr := hf
      simp only [findUser, husers, find_pushChats, hf2, Option.map_some']
    have hall : ∀ c ∈ usr.Chats ++ List.replicate (req.Users.count u) cid,
        findChat s1 c ≠ none := by
      intro c hc
      rcases List.mem_append.mp hc with hc | hc
      · have hold := hres u hu usr hf c hc
        have : findChat s1 c = findChat s c := by
          simp only [findChat, hchats]
          exact find_append_of_ne_none _ _ _ hold
        rw [this]; exact hold
      · rw [(List.mem_replicate.mp hc).2, hnew]; simp
    obtain ⟨hr, _⟩ := resolveAll_of_resolves _ _ hall
    refine ⟨_, getChats_eq pdqsort _ u _ _ hu1 hr, { stampChat req env with ID := cid }, ?_, rfl⟩
    refine (sortSlice_perm pdqsort _ _ (hperm _ _)).mem_iff.mpr ?_
    refine List.mem_filterMap.mpr ⟨cid, ?_, hnew⟩
    have hpos : 0 < req.Users.count u := List.count_pos_iff.mpr hu
    exact List.mem_append_right _ (List.mem_replicate.mpr ⟨by omega, rfl⟩)

theorem addChat_then_getChats_witness :
    AddChat exTwoUsers exChatReq exEnv = ((AddChat exTwoUsers exChatReq exEnv).1, Response.id 5) ∧
      (∃ chat, findChat (AddChat exTwoUsers exChatReq exEnv).1 5 = some chat ∧
        chat.Users = exChatReq.Users) ∧
      ∀ u ∈ exChatReq.Users, ∃ cs,
        GetChats insertionSort (AddChat exTwoUsers exChatReq exEnv).1 u = Response.chats cs ∧
          ∃ c ∈ cs, c.ID = 5 :=
  ⟨rfl, addChat_then_getChats insertionSort (fun less xs _ => insertionSort_perm less xs)
    exTwoUsers _ exChatReq exEnv 5 rfl (by decide)⟩

/-! ## The consistency invariant -/

theorem inv_empty : Inv Store.empty :=
  ⟨List.nodup_nil, List.nodup_nil, fun c hc => (by cases hc), fun u hu => (by cases hu),
    fun c hc => (by cases hc)⟩

theorem backRefs_append (cs : List Chat) (c : Chat) (u : ObjectID) :
    backRefs (cs ++ [c]) u = backRefs cs u ++ List.replicate (c.Users.count u) c.ID := by
  simp [backRefs, List.flatMap_append, List.flatMap_singleton]

theorem backRefs_eq_nil (cs : List Chat) (u : ObjectID) (h : ∀ c ∈ cs, u ∉ c.Users) :
    backRefs cs u = [] := by
  unfold backRefs
  rw [List.flatMap_eq_nil_iff]
  intro c hc
  rw [List.count_eq_zero_of_not_mem (h c hc)]
  rfl

theorem mem_backRefs {cs : List Chat} {u x : ObjectID} :
    x ∈ backRefs cs u ↔ ∃ c ∈ cs, c.ID = x ∧ u ∈ c.Users := by
  unfold backRefs
  rw [List.mem_flatMap]
  constructor
  · rintro ⟨c, hc, hx⟩
    obtain ⟨hne, hxe⟩ := List.mem_replicate.mp hx
    exact ⟨c, hc, hxe.symm, List.count_pos_iff.mp (Nat.pos_of_ne_zero hne)⟩
  · rintro ⟨c, hc, hid, hu⟩
    refine ⟨c, hc, List.mem_replicate.mpr ⟨?_, hid.symm⟩⟩
    exact Nat.pos_iff_ne_zero.mp (List.count_pos_iff.mpr hu)

theorem count_backRefs (cs : List Chat) (u : ObjectID) (hnd : (cs.map Chat.ID).Nodup)
    (c : Chat) (hc : c ∈ cs) : (backRefs cs u).count c.ID = c.Users.count u := by
  induction cs with
  | nil => cases hc
  | cons c0 rest ih =>
    have hcons : backRefs (c0 :: rest) u =
        List.replicate (c0.Users.count u) c0.ID ++ backRefs rest u := by
      simp [backRefs]
    rw [hcons, List.count_append]
    simp only [List.map_cons, List.nodup_cons] at hnd
    obtain ⟨hnot, hrest⟩ := hnd
    rcases List.mem_cons.mp hc with rfl | hc
    · have hz : (backRefs rest u).count c.ID = 0 := by
        apply List.count_eq_zero_of_not_mem
        intro hmem
        obtain ⟨c2, hc2, hid, _⟩ := mem_backRefs.mp hmem
        exact hnot (List.mem_map.mpr ⟨c2, hc2, hid⟩)
      rw [hz, List.count_replicate_self]
      rfl
    · have hne : ¬ c0.ID = c.ID := by
        intro he
        exact hnot (List.mem_map.mpr ⟨c, hc, he.symm⟩)
      rw [List.count_replicate, ih hrest hc]
      simp [hne]

theorem backRefs_of_nodup (cs : List Chat) (u : ObjectID) (h : ∀ c ∈ cs, c.Users.Nodup) :
    backRefs cs u = (cs.filter (fun c => decide (u ∈ c.Users))).map Chat.ID := by
  induction cs with
  | nil => rfl
  | cons c0 rest ih =>
    have hcons : backRefs (c0 :: rest) u =
        List.replicate (c0.Users.count u) c0.ID ++ backRefs rest u := by
      simp [backRefs]
    rw [hcons, ih (fun c hc => h c (List.mem_cons_of_mem _ hc))]
    by_cases hu : u ∈ c0.Users
    · have h1 : c0.Users.count u = 1 :=
        List.count_eq_one_of_mem (h c0 (List.mem_cons_self _ _)) hu
      simp [h1, hu, List.filter_cons]
    · simp [List.count_eq_zero_of_not_mem hu, hu, List.filter_cons]

theorem findUser_ne_none_iff (s : Store) (x : ObjectID) :
    findUser s x ≠ none ↔ x ∈ s.users.map User.ID := by
  unfold findUser
  rw [Ne, List.find?_eq_none]
  simp only [List.mem_map, not_forall, Classical.not_not]
  constructor
  · rintro ⟨u, hu, hid⟩
    exact ⟨u, hu, by simpa using hid⟩
  · rintro ⟨u, hu, hid⟩
    exact ⟨u, hu, by simpa using hid⟩

theorem addUser_cases (s : Store) (req : User) (env : Env) :
    (AddUser s req env).1 = s ∨
      ∃ uid, AddUser s req env = ((AddUser s req env).1, Response.id uid) := by
  unfold AddUser
  simp only []
  cases findUserByName s req.Username with
  | some u => exact Or.inl rfl
  | none =>
    cases insertUser env s.users
        { ID := req.ID, Username := req.Username, Chats := [], CreatedAt := env.now 0 } with
    | none => exact Or.inl rfl
    | some r => exact Or.inr ⟨r.1, rfl⟩

theorem inv_addUser (s : Store) (req : User) (env : Env) (hinv : Inv s) :
    Inv (AddUser s req env).1 := by
  rcases addUser_cases s req env with h | ⟨uid, h⟩
  · rw [h]; exact hinv
  · obtain ⟨hfresh, hs⟩ := addUser_ok h
    rw [hs]
    have hnot : uid ∉ s.users.map User.ID := by
      intro hmem
      obtain ⟨d, hd, hid⟩ := List.mem_map.mp hmem
      exact hfresh d hd hid
    refine ⟨?_, hinv.chatsNodup, ?_, ?_, hinv.chatMessages⟩
    · simp only [List.map_append, List.map_cons, List.map_nil]
      refine List.Nodup.append hinv.usersNodup (List.nodup_singleton _) ?_
      intro x hx hx2
      rw [List.mem_singleton] at hx2
      subst hx2
      exact hnot hx
    · intro c hc u hu
      simp only [List.map_append, List.mem_append]
      exact Or.inl (hinv.chatUsers c hc u hu)
    · intro u hu
      rcases List.mem_append.mp hu with hu | hu
      · exact hinv.userChats u hu
      · rw [List.mem_singleton] at hu
        subst hu
        symm
        apply backRefs_eq_nil
        intro c hc hmem
        exact hnot (hinv.chatUsers c hc _ hmem)

theorem pushChat_eq_map (userId chatId : ObjectID) (us : List User)
    (hnd : (us.map User.ID).Nodup) :
    pushChat userId chatId us =
      us.map (fun u => if u.ID = userId then { u with Chats := u.Chats ++ [chatId] } else u) := by
  induction us with
  | nil => rfl
  | cons u rest ih =>
    simp only [List.map_cons, List.nodup_cons] at hnd
    obtain ⟨hnot, hrest⟩ := hnd
    by_cases hu : u.ID = userId
    · have hid : ∀ v ∈ rest, (if v.ID = userId then
          ({ v with Chats := v.Chats ++ [chatId] } : User) else v) = v := by
        intro v hv
        have hne : ¬ v.ID = userId := by
          intro he
          exact hnot (List.mem_map.mpr ⟨v, hv, he.trans hu.symm⟩)
        simp [hne]
      have hrest2 : rest.map (fun v => if v.ID = userId then
          ({ v with Chats := v.Chats ++ [chatId] } : User) else v) = rest := by
        rw [List.map_congr_left hid, List.map_id']
      simp only [pushChat, hu, if_true, List.map_cons, hrest2]
    · simp only [pushChat, hu, if_false, List.map_cons]
      rw [ih hrest]

theorem pushChats_eq_map (chatId : ObjectID) (ids : List ObjectID) (us : List User)
    (hnd : (us.map User.ID).Nodup) :
    pushChats chatId ids us =
      us.map (fun u => { u with Chats := u.Chats ++ List.replicate (ids.count u.ID) chatId }) := by
  induction ids generalizing us with
  | nil =>
    simp only [pushChats, List.foldl_nil, List.count_nil, List.replicate_zero, List.append_nil]
    exact (List.map_id _).symm
  | cons a rest ih =>
    have hstep : pushChats chatId (a :: rest) us = pushChats chatId rest (pushChat a chatId us) := by
      simp [pushChats]
    have hmapid : (pushChat a chatId us).map User.ID = us.map User.ID := by
      rw [pushChat_eq_map a chatId us hnd, List.map_map]
      apply List.map_congr_left
      intro u _
      by_cases hu : u.ID = a <;> simp [hu]
    rw [hstep, ih _ (by rw [hmapid]; exact hnd), pushChat_eq_map a chatId us hnd, List.map_map]
    apply List.map_congr_left
    intro u _
    by_cases hu : u.ID = a
    · have hau : a = u.ID := hu.symm
      simp [hu, List.count_cons_self, List.replicate_succ]
    · have hau : ¬ a = u.ID := fun h => hu h.symm
      simp [hu, List.count_cons, hau]

theorem addChat_cases (s : Store) (req : Chat) (env : Env) (hok : env.noFault) :
    (AddChat s req env).1 = s ∨
      ∃ cid, AddChat s req env = ((AddChat s req env).1, Response.id cid) := by
  cases hn : findChatByName s req.Name with
  | some c => left; simp [AddChat, hn]
  | none =>
    cases hm : firstMissingUser s req.Users with
    | some u => left; simp [AddChat, hn, hm]
    | none =>
      cases hi : insertChat env s.chats (stampChat req env) with
      | none => left; simp [AddChat, hn, hm, hi]
      | some r =>
        obtain ⟨oid, chats1⟩ := r
        right
        refine ⟨oid, ?_⟩
        rw [addChat_after_insert s req env oid chats1 hn hm hi,
          backfill_ok env oid req.Users 0 s.users (fun j _ => hok.2 _)]
        simp

theorem inv_addChat (s : Store) (req : Chat) (env : Env) (hok : env.noFault) (hinv : Inv s) :
    Inv (AddChat s req env).1 := by
  rcases addChat_cases s req env hok with h | ⟨cid, h⟩
  · rw [h]; exact hinv
  · obtain ⟨_, hvalid, hfresh, hs⟩ := addChat_ok h
    rw [hs]
    have husers := pushChats_eq_map cid req.Users s.users hinv.usersNodup
    have hids : (pushChats cid req.Users s.users).map User.ID = s.users.map User.ID := by
      rw [husers, List.map_map]
      exact List.map_congr_left (fun u _ => rfl)
    have hnot : cid ∉ s.chats.map Chat.ID := by
      intro hmem
      obtain ⟨d, hd, hid⟩ := List.mem_map.mp hmem
      exact hfresh d hd hid
    refine ⟨?_, ?_, ?_, ?_, ?_⟩
    · show ((pushChats cid req.Users s.users).map User.ID).Nodup
      rw [hids]; exact hinv.usersNodup
    · show ((s.chats ++ [{ stampChat req env with ID := cid }]).map Chat.ID).Nodup
      simp only [List.map_append, List.map_cons, List.map_nil]
      refine List.Nodup.append hinv.chatsNodup (List.nodup_singleton _) ?_
      intro x hx hx2
      rw [List.mem_singleton] at hx2
      subst hx2
      exact hnot hx
    · intro c hc u hu
      show u ∈ (pushChats cid req.Users s.users).map User.ID
      rw [hids]
      have hc2 : c ∈ s.chats ++ [{ stampChat req env with ID := cid }] := hc
      rcases List.mem_append.mp hc2 with hc2 | hc2
      · exact hinv.chatUsers c hc2 u hu
      · rw [List.mem_singleton] at hc2
        subst hc2
        exact (findUser_ne_none_iff s u).mp ((firstMissingUser_none s req.Users).mp hvalid u hu)
    · intro u hu
      have hu2 : u ∈ pushChats cid req.Users s.users := hu
      rw [husers] at hu2
      obtain ⟨u0, hu0, rfl⟩ := List.mem_map.mp hu2
      show u0.Chats ++ List.replicate (req.Users.count u0.ID) cid =
        backRefs (s.chats ++ [{ stampChat req env with ID := cid }]) u0.ID
      rw [backRefs_append, ← hinv.userChats u0 hu0]
      rfl
    · intro c hc m hm
      have hc2 : c ∈ s.chats ++ [{ stampChat req env with ID := cid }] := hc
      rcases List.mem_append.mp hc2 with hc2 | hc2
      · exact hinv.chatMessages c hc2 m hm
      · rw [List.mem_singleton] at hc2
        subst hc2
        cases hm

theorem mem_pushMessage {chatId messageId : ObjectID} {t : Time} {cs : List Chat} {c1 : Chat}
    (h : c1 ∈ pushMessage chatId messageId t cs) :
    c1 ∈ cs ∨ ∃ c, cs.find? (fun d => d.ID == chatId) = some c ∧
      c1 = { c with Messages := c.Messages ++ [messageId], LastMessageAt := t } := by
  induction cs with
  | nil => cases h
  | cons c rest ih =>
    by_cases hc : c.ID = chatId
    · subst hc
      simp only [pushMessage, if_true] at h
      rcases List.mem_cons.mp h with h | h
      · exact Or.inr ⟨c, by simp [List.find?_cons], h⟩
      · exact Or.inl (List.mem_cons_of_mem _ h)
    · simp only [pushMessage, hc, if_false] at h
      rcases List.mem_cons.mp h with h | h
      · exact Or.inl (h ▸ List.mem_cons_self _ _)
      · rcases ih h with h2 | ⟨c2, hf, he⟩
        · exact Or.inl (List.mem_cons_of_mem _ h2)
        · exact Or.inr ⟨c2, by simp [List.find?_cons, hc, hf], he⟩

theorem map_pushMessage (chatId messageId : ObjectID) (t : Time) (cs : List Chat) :
    (pushMessage chatId messageId t cs).map (fun c => (c.ID, c.Users)) =
      cs.map (fun c => (c.ID, c.Users)) := by
  induction cs with
  | nil => rfl
  | cons c rest ih =>
    by_cases hc : c.ID = chatId
    · simp [pushMessage, hc]
    · simp [pushMessage, hc, ih]

theorem backRefs_eq_of_map (cs ds : List Chat) (u : ObjectID)
    (h : cs.map (fun c => (c.ID, c.Users)) = ds.map (fun c => (c.ID, c.Users))) :
    backRefs cs u = backRefs ds u := by
  have key : ∀ l : List Chat, backRefs l u =
      (l.map (fun c => (c.ID, c.Users))).flatMap
        (fun p => List.replicate (p.2.count u) p.1) := by
    intro l
    induction l with
    | nil => rfl
    | cons c rest ih =>
      have hcons : backRefs (c :: rest) u =
          List.replicate (c.Users.count u) c.ID ++ backRefs rest u := by
        simp [backRefs]
      rw [hcons, ih]
      simp
  rw [key cs, key ds, h]

theorem addMessage_cases (s : Store) (req : Message) (env : Env) (hok : env.noFault) :
    (AddMessage s req env).1 = s ∨
      ∃ mid, AddMessage s req env = ((AddMessage s req env).1, Response.id mid) := by
  cases hc : findChat s req.Chat with
  | none => left; simp [AddMessage, hc]
  | some chat =>
    cases ha : authorFound req.Author chat.Users with
    | false => left; simp [AddMessage, hc, ha]
    | true =>
      cases hi : insertMessage env s.messages { req with CreatedAt := env.now 0 } with
      | none => left; simp [AddMessage, hc, ha, hi]
      | some r =>
        right
        refine ⟨r.1, ?_⟩
        simp [AddMessage, hc, ha, hi, hok.2 0]

theorem inv_addMessage (s : Store) (req : Message) (env : Env) (hok : env.noFault)
    (hinv : Inv s) : Inv (AddMessage s req env).1 := by
  rcases addMessage_cases s req env hok with h | ⟨mid, h⟩
  · rw [h]; exact hinv
  · obtain ⟨chat, hchat, hauthor, hfresh, hs⟩ := addMessage_ok h
    rw [hs]
    have hmap := map_pushMessage req.Chat mid (env.now 1) s.chats
    have hkeep : ∀ (m : ObjectID) (msg : Message) (extra : List Message),
        findMessage s m = some msg →
        (s.messages ++ extra).find? (fun d => d.ID == m) = some msg := by
      intro m msg extra hf
      have hne : s.messages.find? (fun d => d.ID == m) ≠ none := by
        have hf2 : s.messages.find? (fun d => d.ID == m) = some msg := hf
        rw [hf2]; simp
      rw [find_append_of_ne_none _ _ _ hne]
      exact hf
    refine ⟨hinv.usersNodup, ?_, ?_, ?_, ?_⟩
    · show ((pushMessage req.Chat mid (env.now 1) s.chats).map Chat.ID).Nodup
      have : (pushMessage req.Chat mid (env.now 1) s.chats).map Chat.ID = s.chats.map Chat.ID := by
        have := congrArg (List.map Prod.fst) hmap
        simpa [List.map_map, Function.comp_def] using this
      rw [this]; exact hinv.chatsNodup
    · intro c hc u hu
      show u ∈ s.users.map User.ID
      have hc2 : c ∈ pushMessage req.Chat mid (env.now 1) s.chats := hc
      rcases mem_pushMessage hc2 with hc3 | ⟨c0, hf, rfl⟩
      · exact hinv.chatUsers c hc3 u hu
      · exact hinv.chatUsers c0 (List.mem_of_find?_eq_some hf) u hu
    · intro u hu
      show u.Chats = backRefs (pushMessage req.Chat mid (env.now 1) s.chats) u.ID
      rw [backRefs_eq_of_map _ _ _ hmap]
      exact hinv.userChats u hu
    · intro c hc m hm
      have hc2 : c ∈ pushMessage req.Chat mid (env.now 1) s.chats := hc
      rcases mem_pushMessage hc2 with hc3 | ⟨c0, hf, rfl⟩
      · obtain ⟨msg, hfm, h1, h2⟩ := hinv.chatMessages c hc3 m hm
        exact ⟨msg, hkeep m msg _ hfm, h1, h2⟩
      · have hc0 : c0 ∈ s.chats := List.mem_of_find?_eq_some hf
        have hm2 : m ∈ c0.Messages ++ [mid] := hm
        rcases List.mem_append.mp hm2 with hm3 | hm3
        · obtain ⟨msg, hfm, h1, h2⟩ := hinv.chatMessages c0 hc0 m hm3
          exact ⟨msg, hkeep m msg _ hfm, h1, h2⟩
        · rw [List.mem_singleton] at hm3
          subst hm3
          have hsame : c0 = chat := by
            have : s.chats.find? (fun d => d.ID == req.Chat) = some chat := hchat
            rw [hf] at this
            exact Option.some.inj this
          subst hsame
          have hid : c0.ID = req.Chat := by
            have := List.find?_some hf
            simpa using this
          exact ⟨_, find_append_fresh _ _ _ (fun d hd => by simpa using hfresh d hd) (by simp),
            hid.symm, hauthor⟩

theorem reachable_inv {s : Store} (h : Reachable s) : Inv s := by
  induction h with
  | empty => exact inv_empty
  | addUser s req env _ _ ih => exact inv_addUser s req env ih
  | addChat s req env _ hok ih => exact inv_addChat s req env hok ih
  | addMessage s req env _ hok ih => exact inv_addMessage s req env hok ih

/-! ## Reachable states: back-references and resolution -/

theorem noFault_exEnvWith (newID : ObjectID) (t : Time) : (exEnvWith newID t).noFault :=
  ⟨rfl, fun _ => rfl⟩

theorem noFault_exEnv : exEnv.noFault := ⟨rfl, fun _ => rfl⟩

theorem noFault_exEnv6 : exEnv6.noFault := ⟨rfl, fun _ => rfl⟩

theorem exRepeated_eq :
    exRepeated = (AddChat (AddUser Store.empty exUserReq (exEnvWith 1 10)).1 exChatReqTwice exEnv).1 :=
  rfl

theorem exConversation_eq :
    exConversation = (AddMessage (AddChat (AddUser Store.empty exUserReq (exEnvWith 1 10)).1
      exChatReqSolo exEnv).1 ⟨0, 5, 1, "hi", zeroTime⟩ exEnv6).1 :=
  rfl

theorem reachable_exRepeated : Reachable exRepeated := by
  rw [exRepeated_eq]
  exact Reachable.addChat _ _ _
    (Reachable.addUser _ _ _ Reachable.empty (noFault_exEnvWith 1 10)) noFault_exEnv

theorem reachable_exConversation : Reachable exConversation := by
  rw [exConversation_eq]
  exact Reachable.addMessage _ _ _
    (Reachable.addChat _ _ _
      (Reachable.addUser _ _ _ Reachable.empty (noFault_exEnvWith 1 10)) noFault_exEnv)
    noFault_exEnv6

theorem find_of_exists {α : Type} (p : α → Bool) (l : List α) (h : ∃ x ∈ l, p x = true) :
    ∃ y, l.find? p = some y ∧ p y = true := by
  cases hf : l.find? p with
  | none =>
    obtain ⟨x, hx, hp⟩ := h
    exact absurd hp (List.find?_eq_none.mp hf x hx)
  | some y => exact ⟨y, rfl, List.find?_some hf⟩

/-- C8 (as stated, refuted): after `AddUser` for "ann" and an `AddChat` whose users list is
`[1, 1]`, both without a store error, user 1 is in chat 5 and lists chat 5 twice. -/
theorem reachable_chat_id_repeated :
    Reachable exRepeated ∧ ∃ u ∈ exRepeated.users, ∃ c ∈ exRepeated.chats,
      u.ID ∈ c.Users ∧ u.Chats = [c.ID, c.ID] ∧ u.Chats.count c.ID = 2 ∧ ¬ u.Chats.Nodup := by
  refine ⟨reachable_exRepeated, ⟨1, "ann", [5, 5], 10⟩, by decide,
    ⟨5, "echo", [1, 1], [], 1000, zeroTime⟩, by decide, by decide, rfl, by decide, by decide⟩

/-- C8 (amended): in a store reached from the empty one by `AddUser`, `AddChat` and `AddMessage`
calls without store errors, chat ids are distinct and every user's chats list is, chat by chat in
the order the chats were inserted, the chat's id once per occurrence of the user in that chat's
users list: it holds a chat id exactly when that chat's users list holds the user, as many times
as the user occurs there, and when no users list repeats an id it holds each such chat id exactly
once. -/
theorem reachable_user_chats (s : Store) (h : Reachable s) :
    (s.chats.map Chat.ID).Nodup ∧
      ∀ u ∈ s.users,
        u.Chats = backRefs s.chats u.ID ∧
        (∀ cid, cid ∈ u.Chats ↔ ∃ c ∈ s.chats, c.ID = cid ∧ u.ID ∈ c.Users) ∧
        (∀ c ∈ s.chats, u.Chats.count c.ID = c.Users.count u.ID) ∧
        ((∀ c ∈ s.chats, c.Users.Nodup) →
          u.Chats = (s.chats.filter (fun c => decide (u.ID ∈ c.Users))).map Chat.ID ∧
            u.Chats.Nodup) := by
  have hinv := reachable_inv h
  refine ⟨hinv.chatsNodup, ?_⟩
  intro u hu
  have hrefs := hinv.userChats u hu
  refine ⟨hrefs, ?_, ?_, ?_⟩
  · intro cid
    rw [hrefs]
    exact mem_backRefs
  · intro c hc
    rw [hrefs]
    exact count_backRefs s.chats u.ID hinv.chatsNodup c hc
  · intro hnd
    have heq : u.Chats = (s.chats.filter (fun c => decide (u.ID ∈ c.Users))).map Chat.ID := by
      rw [hrefs]
      exact backRefs_of_nodup s.chats u.ID hnd
    refine ⟨heq, ?_⟩
    rw [heq]
    exact hinv.chatsNodup.sublist ((List.filter_sublist _).map Chat.ID)

theorem reachable_user_chats_witness :
    Reachable exConversation ∧
      ((exConversation.chats.map Chat.ID).Nodup ∧
        ∀ u ∈ exConversation.users,
          u.Chats = backRefs exConversation.chats u.ID ∧
          (∀ cid, cid ∈ u.Chats ↔ ∃ c ∈ exConversation.chats, c.ID = cid ∧ u.ID ∈ c.Users) ∧
          (∀ c ∈ exConversation.chats, u.Chats.count c.ID = c.Users.count u.ID) ∧
          ((∀ c ∈ exConversation.chats, c.Users.Nodup) →
            u.Chats =
                (exConversation.chats.filter (fun c => decide (u.ID ∈ c.Users))).map Chat.ID ∧
              u.Chats.Nodup)) :=
  ⟨reachable_exConversation, reachable_user_chats exConversation reachable_exConversation⟩

/-- C9: in a store reached from the empty one by `AddUser`, `AddChat` and `AddMessage` calls
without store errors, every id of a user's chats list is the id of a stored chat, every id of a
chat's messages list is the id of a stored message whose chat is that chat and whose author is
in that chat's users list, and so `GetChats` for a stored user and `GetMessages` for a stored
chat answer with a list, whatever the library's quicksort does. -/
theorem reachable_references_resolve (pdqsort : SliceSort) (s : Store) (h : Reachable s) :
    (∀ u ∈ s.users, ∀ c ∈ u.Chats, ∃ chat, findChat s c = some chat ∧ chat.ID = c) ∧
      (∀ c ∈ s.chats, ∀ m ∈ c.Messages, ∃ msg, findMessage s m = some msg ∧ msg.ID = m ∧
        msg.Chat = c.ID ∧ msg.Author ∈ c.Users) ∧
      (∀ uid usr, findUser s uid = some usr →
        ∃ cs, GetChats pdqsort s uid = Response.chats cs) ∧
      (∀ cid chat, findChat s cid = some chat →
        ∃ ms, GetMessages pdqsort s cid = Response.messages ms) := by
  have hinv := reachable_inv h
  have h1 : ∀ u ∈ s.users, ∀ c ∈ u.Chats, ∃ chat, findChat s c = some chat ∧ chat.ID = c := by
    intro u hu c hc
    rw [hinv.userChats u hu] at hc
    obtain ⟨c0, hc0, hid, _⟩ := mem_backRefs.mp hc
    obtain ⟨y, hy, hp⟩ := find_of_exists (fun d : Chat => d.ID == c) s.chats
      ⟨c0, hc0, by simp [hid]⟩
    exact ⟨y, hy, by simpa using hp⟩
  have h2 : ∀ c ∈ s.chats, ∀ m ∈ c.Messages, ∃ msg, findMessage s m = some msg ∧ msg.ID = m ∧
      msg.Chat = c.ID ∧ msg.Author ∈ c.Users := by
    intro c hc m hm
    obtain ⟨msg, hf, hchat, hauthor⟩ := hinv.chatMessages c hc m hm
    have hp := List.find?_some (show s.messages.find? (fun d => d.ID == m) = some msg from hf)
    exact ⟨msg, hf, by simpa using hp, hchat, hauthor⟩
  refine ⟨h1, h2, ?_, ?_⟩
  · intro uid usr hf
    have hmem : usr ∈ s.users := List.mem_of_find?_eq_some hf
    have hall : ∀ c ∈ usr.Chats, findChat s c ≠ none := by
      intro c hc
      obtain ⟨chat, hchat, _⟩ := h1 usr hmem c hc
      rw [hchat]; simp
    obtain ⟨hr, _⟩ := resolveAll_of_resolves _ _ hall
    exact ⟨_, getChats_eq pdqsort s uid usr _ hf hr⟩
  · intro cid chat hf
    have hmem : chat ∈ s.chats := List.mem_of_find?_eq_some hf
    have hall : ∀ m ∈ chat.Messages, findMessage s m ≠ none := by
      intro m hm
      obtain ⟨msg, hmsg, _⟩ := h2 chat hmem m hm
      rw [hmsg]; simp
    obtain ⟨hr, _⟩ := resolveAll_of_resolves _ _ hall
    exact ⟨_, getMessages_eq pdqsort s cid chat _ hf hr⟩

theorem reachable_references_resolve_witness :
    Reachable exRepeated ∧
      ((∀ u ∈ exRepeated.users, ∀ c ∈ u.Chats,
          ∃ chat, findChat exRepeated c = some chat ∧ chat.ID = c) ∧
        (∀ c ∈ exRepeated.chats, ∀ m ∈ c.Messages, ∃ msg, findMessage exRepeated m = some msg ∧
          msg.ID = m ∧ msg.Chat = c.ID ∧ msg.Author ∈ c.Users) ∧
        (∀ uid usr, findUser exRepeated uid = some usr →
          ∃ cs, GetChats insertionSort exRepeated uid = Response.chats cs) ∧
        (∀ cid chat, findChat exRepeated cid = some chat →
          ∃ ms, GetMessages insertionSort exRepeated cid = Response.messages ms)) :=
  ⟨reachable_exRepeated,
    reachable_references_resolve insertionSort exRepeated reachable_exRepeated⟩

/-! ## Instances of the validation and reader theorems -/

theorem addChat_unknown_user_witness :
    findChatByName exTwoUsers exChatReqUnknown.Name = none ∧
      (∃ i ∈ exChatReqUnknown.Users, findUser exTwoUsers i = none) ∧
      ∃ pre uid post, exChatReqUnknown.Users = pre ++ uid :: post ∧
        (∀ x ∈ pre, findUser exTwoUsers x ≠ none) ∧ findUser exTwoUsers uid = none ∧
        AddChat exTwoUsers exChatReqUnknown exEnv =
          (exTwoUsers, Response.failure 400 (Failure.userIdNotExists uid)) :=
  ⟨rfl, ⟨9, by decide, rfl⟩,
    addChat_unknown_user exTwoUsers exChatReqUnknown exEnv rfl ⟨9, by decide, rfl⟩⟩

theorem addMessage_author_not_in_chat_witness :
    findChat exOneChat exMessageReqStranger.Chat =
        some ⟨3, "general", [1, 2], [], 30, zeroTime⟩ ∧
      exMessageReqStranger.Author ∉ [1, 2] ∧
      AddMessage exOneChat exMessageReqStranger exEnv =
        (exOneChat, Response.failure 400 Failure.authorNotInChat) :=
  ⟨rfl, by decide,
    addMessage_author_not_in_chat exOneChat exMessageReqStranger exEnv
      ⟨3, "general", [1, 2], [], 30, zeroTime⟩ rfl (by decide)⟩

theorem getMessages_sorted_perm_witness :
    SortsLongSlices insertionSort ∧
      findChat exTwoMessages 3 = some ⟨3, "general", [1], [6, 5], 30, 3000⟩ ∧
      ∃ ms, GetMessages insertionSort exTwoMessages 3 = Response.messages ms ∧
        ms.Perm ([6, 5].filterMap (findMessage exTwoMessages)) ∧
        ([6, 5].filterMap (findMessage exTwoMessages)).length = [6, 5].length ∧
        ms.Chain' (fun a b => a.CreatedAt ≤ b.CreatedAt) ∧
        ∀ M1 M2 : Message, M1.CreatedAt < M2.CreatedAt →
          ([6, 5].filterMap (findMessage exTwoMessages) = [M1, M2] ∨
            [6, 5].filterMap (findMessage exTwoMessages) = [M2, M1]) → ms = [M1, M2] :=
  ⟨insertionSort_sortsLongSlices, rfl,
    getMessages_sorted_perm insertionSort exTwoMessages 3
      ⟨3, "general", [1], [6, 5], 30, 3000⟩ rfl (by decide)
      (fun _ => insertionSort_sortsLongSlices)⟩

theorem getChats_sorted_perm_witness :
    SortsLongSlices insertionSort ∧
      findUser exTwoChats 1 = some ⟨1, "ann", [3, 4], 10⟩ ∧
      ∃ cs, GetChats insertionSort exTwoChats 1 = Response.chats cs ∧
        cs.Perm ([3, 4].filterMap (findChat exTwoChats)) ∧
        ([3, 4].filterMap (findChat exTwoChats)).length = [3, 4].length ∧
        cs.Chain' (fun a b => b.LastMessageAt ≤ a.LastMessageAt) ∧
        ∀ C1 C2 : Chat, C1.LastMessageAt < C2.LastMessageAt →
          ([3, 4].filterMap (findChat exTwoChats) = [C1, C2] ∨
            [3, 4].filterMap (findChat exTwoChats) = [C2, C1]) → cs = [C2, C1] :=
  ⟨insertionSort_sortsLongSlices, rfl,
    getChats_sorted_perm insertionSort exTwoChats 1
      ⟨1, "ann", [3, 4], 10⟩ rfl (by decide) (fun _ => insertionSort_sortsLongSlices)⟩

end Messenger
